import Mathlib

/-!
Verification of the sandbox isolation layer of `ralph-tui`
(`src/sandbox/wrapper.ts`).

The wrapper builds a `bwrap` argument vector from a sandbox configuration,
agent requirements and a working directory.  The embedding below translates
the TypeScript source, together with the Node `path` functions it uses
(`path.isAbsolute`, `path.resolve` on POSIX) and JavaScript `Set` insertion
semantics, into executable Lean definitions.  Host-dependent effects
(`fs.existsSync`, `process.cwd()`) are modelled as a `Host` record of pure
functions, so every run of the wrapper is a deterministic function of the
host snapshot and its inputs.
-/

namespace Ralph

/-- POSIX `path.isAbsolute`: a path is absolute when its first character is
the separator. -/
def isAbsolute (p : String) : Bool :=
  match p.data with
  | '/' :: _ => true
  | _ => false

/-- Split a character list at separators, accumulating the current (reversed)
segment.  Used to model splitting a POSIX path into segments. -/
def splitChars : List Char → List Char → List String
  | [], cur => [String.mk cur.reverse]
  | c :: rest, cur =>
    if c = '/' then String.mk cur.reverse :: splitChars rest []
    else splitChars rest (c :: cur)

/-- The non-empty segments of a POSIX path string. -/
def pathSegments (p : String) : List String :=
  (splitChars p.data []).filter (fun s => decide (s ≠ ""))

/-- POSIX path normalization for an absolute segment list: `.` is dropped,
`..` pops the last segment (and is ignored at the root), as in Node's
`path.posix` normalization of absolute paths.  The first argument is the
reversed accumulator of retained segments. -/
def normSegs : List String → List String → List String
  | acc, [] => acc.reverse
  | acc, "." :: rest => normSegs acc rest
  | acc, ".." :: rest => normSegs (acc.drop 1) rest
  | acc, s :: rest => normSegs (s :: acc) rest

/-- Join path segments with the separator. -/
def joinSegs : List String → String
  | [] => ""
  | [s] => s
  | s :: rest => s ++ "/" ++ joinSegs rest

/-- Node `path.resolve(...ps)` on POSIX, with `ambient` standing for
`process.cwd()`: the rightmost absolute argument wins and later relative
arguments are appended to it; when no argument is absolute everything is
resolved against the ambient working directory; the joined segment list is
then normalized.  The result always starts with the separator. -/
def resolve (ambient : String) (ps : List String) : String :=
  let segs := (ambient :: ps).foldl
    (fun acc p => if isAbsolute p then pathSegments p else acc ++ pathSegments p) []
  "/" ++ joinSegs (normSegs [] segs)

/-- JavaScript `String.prototype.trim`: strip leading and trailing
whitespace characters. -/
def strTrim (s : String) : String :=
  String.mk (((s.data.dropWhile Char.isWhitespace).reverse.dropWhile
    Char.isWhitespace).reverse)

/-- Insertion into a JavaScript `Set` viewed as its iteration list: a new
element is appended at the end, a present element leaves the set unchanged
(first insertion wins the position). -/
def insertUniq (acc : List String) (x : String) : List String :=
  if x ∈ acc then acc else acc ++ [x]

/-- The iteration list of `new Set(l)`: first occurrences, in order. -/
def jsSetList (l : List String) : List String :=
  l.foldl insertUniq []

/-- The host snapshot the wrapper reads: `fs.existsSync` and
`process.cwd()`. -/
structure Host where
  existsSync : String → Bool
  processCwd : String

/-- `SandboxConfig` (from `src/sandbox/types.ts`, as used by the wrapper):
all fields optional. -/
structure SandboxConfig where
  enabled : Option Bool := none
  mode : Option String := none
  network : Option Bool := none
  allowPaths : Option (List String) := none
  readOnlyPaths : Option (List String) := none
deriving DecidableEq, Repr

/-- `AgentSandboxRequirements` (from the agent plugin types): the three
required read-only path lists an agent declares. -/
structure AgentSandboxRequirements where
  authPaths : List String
  binaryPaths : List String
  runtimePaths : List String
deriving DecidableEq, Repr

/-- `WrappedCommand`: the wrapper's result value. -/
structure WrappedCommand where
  command : String
  args : List String
deriving DecidableEq, Repr

/-- `SandboxWrapOptions`: the optional working directory override. -/
structure SandboxWrapOptions where
  cwd : Option String := none
deriving DecidableEq, Repr

/-- The fixed system directory list of the wrapper. -/
def SYSTEM_DIRS : List String := ["/usr", "/bin", "/lib", "/lib64", "/sbin", "/etc"]

/-- `SandboxWrapper.getRequirementPaths`: concatenation of the three
requirement lists. -/
def getRequirementPaths (r : AgentSandboxRequirements) : List String :=
  r.authPaths ++ r.binaryPaths ++ r.runtimePaths

/-- `SandboxWrapper.normalizePaths(paths, cwd)`: drop entries whose trimmed
form is empty, keep absolute entries verbatim, resolve relative entries
against `cwd`, and deduplicate via `new Set` keeping first occurrences.
`ambient` models `process.cwd()`, which Node's `resolve` falls back to when
`cwd` itself is relative. -/
def normalizePaths (ambient : String) (paths : List String) (cwd : String) :
    List String :=
  jsSetList ((paths.filter (fun p => decide (0 < (strTrim p).length))).map
    (fun p => if isAbsolute p then p else resolve ambient [cwd, p]))

/-- The working directory resolved at the top of `wrapWithBwrap`:
`resolve(options.cwd ?? process.cwd())`. -/
def resolvedWorkDir (host : Host) (options : SandboxWrapOptions) : String :=
  resolve host.processCwd [options.cwd.getD host.processCwd]

/-- The read-write path sources, in insertion order: the working directory
followed by the normalized `allowPaths`. -/
def readWriteSources (host : Host) (config : SandboxConfig)
    (options : SandboxWrapOptions) : List String :=
  resolvedWorkDir host options ::
    normalizePaths host.processCwd (config.allowPaths.getD [])
      (resolvedWorkDir host options)

/-- `readWritePaths` of `wrapWithBwrap`, as its `Set` iteration list. -/
def readWriteList (host : Host) (config : SandboxConfig)
    (options : SandboxWrapOptions) : List String :=
  jsSetList (readWriteSources host config options)

/-- The read-only candidates: normalized `readOnlyPaths` followed by the
normalized agent requirement paths, as the iteration list of the
`readOnlyPaths` `Set` before the precedence deletions. -/
def readOnlyCandidates (host : Host) (config : SandboxConfig)
    (req : AgentSandboxRequirements) (options : SandboxWrapOptions) :
    List String :=
  jsSetList
    (normalizePaths host.processCwd (config.readOnlyPaths.getD [])
        (resolvedWorkDir host options) ++
      normalizePaths host.processCwd (getRequirementPaths req)
        (resolvedWorkDir host options))

/-- The read-only set after `readOnlyPaths.delete(path)` ran for every
read-write path: the candidates with read-write members removed. -/
def readOnlyList (host : Host) (config : SandboxConfig)
    (req : AgentSandboxRequirements) (options : SandboxWrapOptions) :
    List String :=
  (readOnlyCandidates host config req options).filter
    (fun p => decide (p ∉ readWriteList host config options))

/-- One `bwrapArgs.push(flag, path, path)` per list entry. -/
def bindArgs (flag : String) : List String → List String
  | [] => []
  | p :: rest => flag :: p :: p :: bindArgs flag rest

/-- The seed flags of the bwrap argument vector. -/
def baseArgs : List String :=
  ["--die-with-parent", "--dev", "/dev", "--proc", "/proc"]

/-- The network flag block: present exactly when `config.network === false`. -/
def netArgs (config : SandboxConfig) : List String :=
  if config.network = some false then ["--unshare-net"] else []

/-- The system-directory step of `wrapWithBwrap`: a read-only self-bind for
each directory of `SYSTEM_DIRS` that exists on the host. -/
def sysDirBinds (host : Host) : List String :=
  bindArgs "--ro-bind" (SYSTEM_DIRS.filter host.existsSync)

/-- All bwrap arguments pushed before the original command: seed flags,
network flag, system-directory binds, writable binds, read-only binds, and
the working-directory pin with the `--` separator. -/
def bwrapPreamble (host : Host) (config : SandboxConfig)
    (req : AgentSandboxRequirements) (options : SandboxWrapOptions) :
    List String :=
  baseArgs ++ netArgs config ++ sysDirBinds host ++
    bindArgs "--bind" (readWriteList host config options) ++
    bindArgs "--ro-bind" (readOnlyList host config req options) ++
    ["--chdir", resolvedWorkDir host options, "--"]

/-- `SandboxWrapper.wrapWithBwrap`: builds the full bwrap invocation. -/
def wrapWithBwrap (host : Host) (config : SandboxConfig)
    (req : AgentSandboxRequirements) (command : String) (args : List String)
    (options : SandboxWrapOptions) : WrappedCommand :=
  { command := "bwrap"
    args := bwrapPreamble host config req options ++ command :: args }

/-- `SandboxWrapper.wrapCommand`: the gated public entry point. -/
def wrapCommand (host : Host) (config : SandboxConfig)
    (req : AgentSandboxRequirements) (command : String) (args : List String)
    (options : SandboxWrapOptions) : WrappedCommand :=
  if config.enabled = some false ∨ config.mode = some "off" then
    { command := command, args := args }
  else
    if (config.mode.getD "auto") ≠ "auto" ∧ (config.mode.getD "auto") ≠ "bwrap" then
      { command := command, args := args }
    else
      wrapWithBwrap host config req command args options

/-- `listStarts pat l`: `pat` is an initial run of `l`. -/
def listStarts : List String → List String → Bool
  | [], _ => true
  | _ :: _, [] => false
  | a :: pa, b :: lb => a == b && listStarts pa lb

/-- `containsSeg pat l`: `pat` occurs as a contiguous run inside `l`. -/
def containsSeg (pat : List String) : List String → Bool
  | [] => pat.isEmpty
  | b :: t => listStarts pat (b :: t) || containsSeg pat t

/-! ### Helper lemmas about the embedding -/

theorem mem_insertUniq {acc : List String} {x a : String} :
    a ∈ insertUniq acc x ↔ a ∈ acc ∨ a = x := by
  unfold insertUniq
  split
  · rename_i hx
    constructor
    · exact fun h => Or.inl h
    · rintro (h | rfl)
      · exact h
      · exact hx
  · simp

theorem nodup_insertUniq {acc : List String} {x : String} (h : acc.Nodup) :
    (insertUniq acc x).Nodup := by
  unfold insertUniq
  split
  · exact h
  · rename_i hx
    simpa [List.nodup_append, h] using hx

theorem mem_foldl_insertUniq :
    ∀ (l acc : List String) (a : String),
      a ∈ l.foldl insertUniq acc ↔ a ∈ acc ∨ a ∈ l := by
  intro l
  induction l with
  | nil => simp
  | cons x rest ih =>
    intro acc a
    rw [List.foldl_cons, ih, mem_insertUniq]
    constructor
    · rintro ((h | rfl) | h)
      · exact Or.inl h
      · exact Or.inr (List.mem_cons_self _ _)
      · exact Or.inr (List.mem_cons_of_mem _ h)
    · rintro (h | h)
      · exact Or.inl (Or.inl h)
      · rcases List.mem_cons.1 h with rfl | h
        · exact Or.inl (Or.inr rfl)
        · exact Or.inr h

theorem nodup_foldl_insertUniq :
    ∀ (l acc : List String), acc.Nodup → (l.foldl insertUniq acc).Nodup := by
  intro l
  induction l with
  | nil => exact fun acc h => h
  | cons x rest ih =>
    intro acc h
    exact ih _ (nodup_insertUniq h)

theorem mem_jsSetList {l : List String} {a : String} :
    a ∈ jsSetList l ↔ a ∈ l := by
  unfold jsSetList
  rw [mem_foldl_insertUniq]
  simp

theorem nodup_jsSetList (l : List String) : (jsSetList l).Nodup :=
  nodup_foldl_insertUniq l [] List.nodup_nil

theorem isAbsolute_append_slash (s : String) : isAbsolute ("/" ++ s) = true := by
  obtain ⟨d⟩ := s
  rfl

theorem isAbsolute_resolve (ambient : String) (ps : List String) :
    isAbsolute (resolve ambient ps) = true := by
  unfold resolve
  exact isAbsolute_append_slash _

theorem resolve_absolute_head {cwd : String} (h : isAbsolute cwd = true)
    (a b p : String) : resolve a [cwd, p] = resolve b [cwd, p] := by
  simp [resolve, List.foldl, h]

theorem mem_normalizePaths_isAbsolute {ambient cwd q : String}
    {paths : List String} (h : q ∈ normalizePaths ambient paths cwd) :
    isAbsolute q = true := by
  unfold normalizePaths at h
  rw [mem_jsSetList] at h
  obtain ⟨p, hp, rfl⟩ := List.mem_map.1 h
  by_cases habs : isAbsolute p = true
  · simp [habs]
  · simp only [habs]
    simp [isAbsolute_resolve]

theorem normalizePaths_ambient_irrelevant {cwd : String}
    (h : isAbsolute cwd = true) (a b : String) (paths : List String) :
    normalizePaths a paths cwd = normalizePaths b paths cwd := by
  unfold normalizePaths
  congr 1
  apply List.map_congr_left
  intro p _
  by_cases habs : isAbsolute p = true
  · simp [habs]
  · simp only [habs]
    simp only [if_false, Bool.false_eq_true]
    exact resolve_absolute_head h a b p

theorem isAbsolute_resolvedWorkDir (host : Host) (options : SandboxWrapOptions) :
    isAbsolute (resolvedWorkDir host options) = true :=
  isAbsolute_resolve _ _

theorem workDir_mem_readWriteList (host : Host) (config : SandboxConfig)
    (options : SandboxWrapOptions) :
    resolvedWorkDir host options ∈ readWriteList host config options := by
  unfold readWriteList readWriteSources
  rw [mem_jsSetList]
  exact List.mem_cons_self _ _

theorem mem_readWriteList_iff {host : Host} {config : SandboxConfig}
    {options : SandboxWrapOptions} {q : String} :
    q ∈ readWriteList host config options ↔
      q ∈ readWriteSources host config options := by
  unfold readWriteList
  exact mem_jsSetList

theorem mem_readWriteList_isAbsolute {host : Host} {config : SandboxConfig}
    {options : SandboxWrapOptions} {q : String}
    (h : q ∈ readWriteList host config options) : isAbsolute q = true := by
  rw [mem_readWriteList_iff] at h
  unfold readWriteSources at h
  rcases List.mem_cons.1 h with rfl | h
  · exact isAbsolute_resolvedWorkDir _ _
  · exact mem_normalizePaths_isAbsolute h

theorem mem_readOnlyList_iff {host : Host} {config : SandboxConfig}
    {req : AgentSandboxRequirements} {options : SandboxWrapOptions} {q : String} :
    q ∈ readOnlyList host config req options ↔
      q ∈ readOnlyCandidates host config req options ∧
        q ∉ readWriteList host config options := by
  unfold readOnlyList
  rw [List.mem_filter]
  simp

theorem mem_readOnlyList_isAbsolute {host : Host} {config : SandboxConfig}
    {req : AgentSandboxRequirements} {options : SandboxWrapOptions} {q : String}
    (h : q ∈ readOnlyList host config req options) : isAbsolute q = true := by
  rw [mem_readOnlyList_iff] at h
  obtain ⟨h, -⟩ := h
  unfold readOnlyCandidates at h
  rw [mem_jsSetList] at h
  rcases List.mem_append.1 h with h | h
  · exact mem_normalizePaths_isAbsolute h
  · exact mem_normalizePaths_isAbsolute h

theorem mem_bindArgs {f : String} :
    ∀ {l : List String} {q : String}, q ∈ bindArgs f l → q = f ∨ q ∈ l := by
  intro l
  induction l with
  | nil => simp [bindArgs]
  | cons p rest ih =>
    intro q h
    simp only [bindArgs, List.mem_cons] at h
    rcases h with rfl | rfl | rfl | h
    · exact Or.inl rfl
    · exact Or.inr (List.mem_cons_self _ _)
    · exact Or.inr (List.mem_cons_self _ _)
    · rcases ih h with h | h
      · exact Or.inl h
      · exact Or.inr (List.mem_cons_of_mem _ h)

theorem count_bindArgs_zero {x f : String} {l : List String} (hx : x ≠ f)
    (hl : x ∉ l) : List.count x (bindArgs f l) = 0 := by
  rw [List.count_eq_zero]
  intro h
  rcases mem_bindArgs h with rfl | h
  · exact hx rfl
  · exact hl h

theorem listStarts_nil (l : List String) : listStarts [] l = true := by
  cases l <;> rfl

theorem containsSeg_nil (l : List String) : containsSeg [] l = true := by
  induction l with
  | nil => rfl
  | cons b t ih => simp [containsSeg, listStarts_nil]

theorem listStarts_mono :
    ∀ {pat l t : List String}, listStarts pat l = true →
      listStarts pat (l ++ t) = true := by
  intro pat
  induction pat with
  | nil => intro l t _; exact listStarts_nil _
  | cons a pa ih =>
    intro l t h
    cases l with
    | nil => simp [listStarts] at h
    | cons b lb =>
      simp only [listStarts, Bool.and_eq_true] at h
      simp only [List.cons_append, listStarts, Bool.and_eq_true]
      exact ⟨h.1, ih h.2⟩

theorem containsSeg_append_left {pat : List String} :
    ∀ {l : List String} (t : List String), containsSeg pat l = true →
      containsSeg pat (l ++ t) = true := by
  intro l
  induction l with
  | nil =>
    intro t h
    simp only [containsSeg, List.isEmpty_iff] at h
    subst h
    exact containsSeg_nil t
  | cons b l ih =>
    intro t h
    simp only [containsSeg, Bool.or_eq_true] at h
    simp only [List.cons_append, containsSeg, Bool.or_eq_true]
    rcases h with h | h
    · exact Or.inl (listStarts_mono h)
    · exact Or.inr (ih t h)

theorem containsSeg_append_right {pat : List String} :
    ∀ (l : List String) {t : List String}, containsSeg pat t = true →
      containsSeg pat (l ++ t) = true := by
  intro l
  induction l with
  | nil => intro t h; exact h
  | cons b l ih =>
    intro t h
    simp only [List.cons_append, containsSeg, Bool.or_eq_true]
    exact Or.inr (ih h)

theorem containsSeg_bindArgs_of_mem {f d : String} :
    ∀ {l : List String}, d ∈ l → containsSeg [f, d, d] (bindArgs f l) = true := by
  intro l
  induction l with
  | nil => intro h; exact absurd h (List.not_mem_nil _)
  | cons p rest ih =>
    intro h
    rcases List.mem_cons.1 h with rfl | h
    · simp [bindArgs, containsSeg, listStarts, listStarts_nil]
    · simp [bindArgs, containsSeg, ih h]

theorem containsSeg_bindArgs_iff {f d : String} :
    ∀ {l : List String}, (∀ p ∈ l, p ≠ f) →
      (containsSeg [f, d, d] (bindArgs f l) = true ↔ d ∈ l) := by
  intro l
  induction l with
  | nil => intro _; simp [bindArgs, containsSeg]
  | cons p rest ih =>
    intro hf
    have hp : (f == p) = false :=
      beq_eq_false_iff_ne.2 (Ne.symm (hf p (List.mem_cons_self _ _)))
    have hrest := ih (fun q hq => hf q (List.mem_cons_of_mem _ hq))
    simp only [bindArgs, containsSeg, listStarts, listStarts_nil, hp,
      Bool.false_and, Bool.and_true, Bool.false_or, Bool.or_eq_true,
      Bool.and_eq_true, beq_iff_eq, List.mem_cons]
    rw [hrest]
    tauto

theorem containsSeg_writable_bind {host : Host} {config : SandboxConfig}
    {options : SandboxWrapOptions} {p : String}
    (req : AgentSandboxRequirements) (command : String) (args : List String)
    (h : p ∈ readWriteList host config options) :
    containsSeg ["--bind", p, p]
      (wrapWithBwrap host config req command args options).args = true := by
  have h1 : containsSeg ["--bind", p, p]
      (bindArgs "--bind" (readWriteList host config options)) = true :=
    containsSeg_bindArgs_of_mem h
  have h2 : containsSeg ["--bind", p, p]
      (baseArgs ++ netArgs config ++ sysDirBinds host ++
        bindArgs "--bind" (readWriteList host config options)) = true :=
    containsSeg_append_right _ h1
  have h3 := containsSeg_append_left
    (bindArgs "--ro-bind" (readOnlyList host config req options)) h2
  have h4 := containsSeg_append_left
    ["--chdir", resolvedWorkDir host options, "--"] h3
  have h5 := containsSeg_append_left (command :: args) h4
  exact h5

/-! ### The claims -/

/-- C1 (counterexample to the claim as stated): with `allowPaths = ['/usr']`,
`readOnlyPaths = ['/usr']`, working directory `/root` and a host on which
every system directory exists, `/usr` occurs both among the read-write
sources and among the read-only candidates, yet the wrapped argument vector
does contain the read-only bind `--ro-bind /usr /usr` (emitted by the fixed
system-directory step), so the path does not appear only as a writable
bind. -/
theorem c1_ro_bind_counterexample :
    "/usr" ∈ readWriteSources (Host.mk (fun _ => true) "/")
      { allowPaths := some ["/usr"], readOnlyPaths := some ["/usr"] }
      { cwd := some "/root" } ∧
    "/usr" ∈ readOnlyCandidates (Host.mk (fun _ => true) "/")
      { allowPaths := some ["/usr"], readOnlyPaths := some ["/usr"] }
      ⟨[], [], []⟩ { cwd := some "/root" } ∧
    containsSeg ["--ro-bind", "/usr", "/usr"]
      (wrapWithBwrap (Host.mk (fun _ => true) "/")
        { allowPaths := some ["/usr"], readOnlyPaths := some ["/usr"] }
        ⟨[], [], []⟩ "echo" [] { cwd := some "/root" }).args = true := by
  decide

/-- C1 (amended): for every policy, requirements and working directory, the
resolved `readWrite` and `readOnly` sets are disjoint, and any path that
occurs both among the read-write sources and among the read-only candidates
is a member of the read-write set, is excluded from the read-only set,
appears in the wrapped argument vector as a writable bind, and receives no
read-only bind from the resolved read-only set — a read-only self-bind of
such a path can only come from the fixed system-directory step. -/
theorem c1_readwrite_precedence (host : Host) (config : SandboxConfig)
    (req : AgentSandboxRequirements) (command : String) (args : List String)
    (options : SandboxWrapOptions) (p : String)
    (h1 : p ∈ readWriteSources host config options)
    (h2 : p ∈ readOnlyCandidates host config req options) :
    (∀ q ∈ readOnlyList host config req options,
      q ∉ readWriteList host config options) ∧
    p ∈ readWriteList host config options ∧
    p ∉ readOnlyList host config req options ∧
    containsSeg ["--bind", p, p]
      (wrapWithBwrap host config req command args options).args = true ∧
    containsSeg ["--ro-bind", p, p]
      (bindArgs "--ro-bind" (readOnlyList host config req options)) = false := by
  have hmem : p ∈ readWriteList host config options := mem_readWriteList_iff.2 h1
  have hnotro : p ∉ readOnlyList host config req options := by
    intro hro
    exact (mem_readOnlyList_iff.1 hro).2 hmem
  refine ⟨?_, hmem, hnotro, containsSeg_writable_bind req command args hmem, ?_⟩
  · intro q hq
    exact (mem_readOnlyList_iff.1 hq).2
  · have hf : ∀ q ∈ readOnlyList host config req options, q ≠ "--ro-bind" := by
      intro q hq hqe
      have habs := mem_readOnlyList_isAbsolute hq
      rw [hqe] at habs
      exact absurd habs (by decide)
    have hiff : containsSeg ["--ro-bind", p, p]
        (bindArgs "--ro-bind" (readOnlyList host config req options)) = true ↔
        p ∈ readOnlyList host config req options := containsSeg_bindArgs_iff hf
    cases hcs : containsSeg ["--ro-bind", p, p]
        (bindArgs "--ro-bind" (readOnlyList host config req options)) with
    | false => rfl
    | true => exact absurd (hiff.1 hcs) hnotro

/-- C1 witness: the amended theorem applied at a concrete colliding path. -/
theorem c1_readwrite_precedence_witness :
    "/data" ∈ readWriteList (Host.mk (fun _ => true) "/")
      { allowPaths := some ["/data"], readOnlyPaths := some ["/data"] }
      { cwd := some "/proj" } ∧
    "/data" ∉ readOnlyList (Host.mk (fun _ => true) "/")
      { allowPaths := some ["/data"], readOnlyPaths := some ["/data"] }
      ⟨[], [], []⟩ { cwd := some "/proj" } :=
  ⟨(c1_readwrite_precedence (Host.mk (fun _ => true) "/")
      { allowPaths := some ["/data"], readOnlyPaths := some ["/data"] }
      ⟨[], [], []⟩ "echo" [] { cwd := some "/proj" } "/data"
      (by decide) (by decide)).2.1,
   (c1_readwrite_precedence (Host.mk (fun _ => true) "/")
      { allowPaths := some ["/data"], readOnlyPaths := some ["/data"] }
      ⟨[], [], []⟩ "echo" [] { cwd := some "/proj" } "/data"
      (by decide) (by decide)).2.2.1⟩

/-- C2: the resolved working directory (the absolute form of `options.cwd`,
defaulting to the process working directory) is always a member of the
read-write set, never a member of the resolved read-only set, and always
produces a writable bind in the wrapped argument vector, for every policy
and requirements. -/
theorem c2_workdir_always_writable (host : Host) (config : SandboxConfig)
    (req : AgentSandboxRequirements) (command : String) (args : List String)
    (options : SandboxWrapOptions) :
    isAbsolute (resolvedWorkDir host options) = true ∧
    resolvedWorkDir host options ∈ readWriteList host config options ∧
    resolvedWorkDir host options ∉ readOnlyList host config req options ∧
    containsSeg
      ["--bind", resolvedWorkDir host options, resolvedWorkDir host options]
      (wrapWithBwrap host config req command args options).args = true := by
  have hmem := workDir_mem_readWriteList host config options
  refine ⟨isAbsolute_resolvedWorkDir host options, hmem, ?_,
    containsSeg_writable_bind req command args hmem⟩
  intro hro
  exact (mem_readOnlyList_iff.1 hro).2 hmem

/-- C3: when `enabled` is `false`, or `mode` is `off`, or the defaulted mode
is neither `auto` nor `bwrap`, `wrapCommand` returns the command and
arguments unchanged. -/
theorem c3_pass_through (host : Host) (config : SandboxConfig)
    (req : AgentSandboxRequirements) (command : String) (args : List String)
    (options : SandboxWrapOptions)
    (h : config.enabled = some false ∨ config.mode = some "off" ∨
      ((config.mode.getD "auto") ≠ "auto" ∧ (config.mode.getD "auto") ≠ "bwrap")) :
    wrapCommand host config req command args options =
      { command := command, args := args } := by
  unfold wrapCommand
  rcases h with h | h | h
  · rw [if_pos (Or.inl h)]
  · rw [if_pos (Or.inr h)]
  · by_cases hg : config.enabled = some false ∨ config.mode = some "off"
    · rw [if_pos hg]
    · rw [if_neg hg, if_pos h]

/-- C3 witness: an unknown mode value degrades to pass-through. -/
theorem c3_pass_through_witness :
    wrapCommand (Host.mk (fun _ => true) "/") { mode := some "firejail" }
      ⟨[], [], []⟩ "echo" ["hi"] { cwd := none } =
      { command := "echo", args := ["hi"] } :=
  c3_pass_through (Host.mk (fun _ => true) "/") { mode := some "firejail" }
    ⟨[], [], []⟩ "echo" ["hi"] { cwd := none } (Or.inr (Or.inr (by decide)))

/-- C4: for every wrapped invocation, the original command followed by the
original arguments appears verbatim as the contiguous trailing run of the
wrapped argument vector, immediately after the working-directory pin and
the `--` separator. -/
theorem c4_payload_trailing (host : Host) (config : SandboxConfig)
    (req : AgentSandboxRequirements) (command : String) (args : List String)
    (options : SandboxWrapOptions) :
    ∃ pre, (wrapWithBwrap host config req command args options).args =
      pre ++ (["--chdir", resolvedWorkDir host options, "--", command] ++ args) := by
  refine ⟨baseArgs ++ netArgs config ++ sysDirBinds host ++
    bindArgs "--bind" (readWriteList host config options) ++
    bindArgs "--ro-bind" (readOnlyList host config req options), ?_⟩
  simp [wrapWithBwrap, bwrapPreamble, List.append_assoc]

/-- C5 (counterexample to the claim as stated): with an unset `network`
field the claim demands zero occurrences of `--unshare-net` in the argument
vector, but wrapping the command named `--unshare-net` itself yields one
occurrence — the trailing payload is part of the returned vector. -/
theorem c5_counterexample :
    ({} : SandboxConfig).network ≠ some false ∧
    List.count "--unshare-net"
      (wrapWithBwrap (Host.mk (fun _ => false) "/") {} ⟨[], [], []⟩
        "--unshare-net" [] { cwd := some "/root" }).args = 1 := by
  decide

/-- C5 (amended): among the wrapper-constructed arguments preceding the
original command and arguments, `--unshare-net` occurs exactly once when
`network` is `some false` and zero times otherwise; the full vector is that
preamble followed by the original command and arguments. -/
theorem c5_network_flag (host : Host) (config : SandboxConfig)
    (req : AgentSandboxRequirements) (command : String) (args : List String)
    (options : SandboxWrapOptions) :
    List.count "--unshare-net" (bwrapPreamble host config req options) =
      (if config.network = some false then 1 else 0) ∧
    (wrapWithBwrap host config req command args options).args =
      bwrapPreamble host config req options ++ command :: args := by
  refine ⟨?_, rfl⟩
  have hbase : List.count "--unshare-net" baseArgs = 0 := by decide
  have hnet : List.count "--unshare-net" (netArgs config) =
      (if config.network = some false then 1 else 0) := by
    unfold netArgs
    split
    · rename_i h
      simp [h]
    · rename_i h
      simp [h]
  have hsys : List.count "--unshare-net" (sysDirBinds host) = 0 := by
    unfold sysDirBinds
    refine count_bindArgs_zero (by decide) ?_
    intro hmem
    exact absurd ((List.mem_filter.1 hmem).1) (by decide)
  have hrw : List.count "--unshare-net"
      (bindArgs "--bind" (readWriteList host config options)) = 0 := by
    refine count_bindArgs_zero (by decide) ?_
    intro hmem
    exact absurd (mem_readWriteList_isAbsolute hmem) (by decide)
  have hro : List.count "--unshare-net"
      (bindArgs "--ro-bind" (readOnlyList host config req options)) = 0 := by
    refine count_bindArgs_zero (by decide) ?_
    intro hmem
    exact absurd (mem_readOnlyList_isAbsolute hmem) (by decide)
  have htail : List.count "--unshare-net"
      ["--chdir", resolvedWorkDir host options, "--"] = 0 := by
    rw [List.count_eq_zero]
    intro hmem
    simp only [List.mem_cons, List.not_mem_nil, or_false] at hmem
    rcases hmem with h | h | h
    · exact absurd h (by decide)
    · have habs := isAbsolute_resolvedWorkDir host options
      rw [← h] at habs
      exact absurd habs (by decide)
    · exact absurd h (by decide)
  unfold bwrapPreamble
  rw [List.count_append, List.count_append, List.count_append,
    List.count_append, List.count_append, hbase, hnet, hsys, hrw, hro, htail]
  omega

/-- C6: the system-directory step emits a read-only self-bind of `d` if and
only if `d` is one of the six fixed system directories and exists on the
host; the whole block appears inside the wrapped argument vector. -/
theorem c6_system_dir_binds (host : Host) (config : SandboxConfig)
    (req : AgentSandboxRequirements) (command : String) (args : List String)
    (options : SandboxWrapOptions) (d : String) :
    (containsSeg ["--ro-bind", d, d] (sysDirBinds host) = true ↔
      d ∈ SYSTEM_DIRS ∧ host.existsSync d = true) ∧
    ∃ pre suf, (wrapWithBwrap host config req command args options).args =
      pre ++ sysDirBinds host ++ suf := by
  constructor
  · have hf : ∀ p ∈ SYSTEM_DIRS.filter host.existsSync, p ≠ "--ro-bind" := by
      intro p hp
      have h1 : p ∈ SYSTEM_DIRS := (List.mem_filter.1 hp).1
      simp only [SYSTEM_DIRS, List.mem_cons, List.not_mem_nil, or_false] at h1
      rcases h1 with rfl | rfl | rfl | rfl | rfl | rfl <;> decide
    have hiff : containsSeg ["--ro-bind", d, d]
        (bindArgs "--ro-bind" (SYSTEM_DIRS.filter host.existsSync)) = true ↔
        d ∈ SYSTEM_DIRS.filter host.existsSync := containsSeg_bindArgs_iff hf
    unfold sysDirBinds
    rw [hiff, List.mem_filter]
  · exact ⟨baseArgs ++ netArgs config,
      bindArgs "--bind" (readWriteList host config options) ++
        bindArgs "--ro-bind" (readOnlyList host config req options) ++
        ["--chdir", resolvedWorkDir host options, "--"] ++ command :: args,
      by simp [wrapWithBwrap, bwrapPreamble, List.append_assoc]⟩

/-- C7: path normalization keeps absolute entries verbatim, resolves
relative entries against the supplied working directory, silently drops
blank and whitespace-only entries, deduplicates its output, and — whenever
the supplied working directory is absolute, as it always is inside the
wrapper — does not depend on the ambient process working directory. -/
theorem c7_normalize_paths (ambient ambient2 cwd : String) (paths : List String) :
    (normalizePaths ambient paths cwd).Nodup ∧
    normalizePaths ambient paths cwd =
      normalizePaths ambient
        (paths.filter (fun p => decide (0 < (strTrim p).length))) cwd ∧
    (∀ p ∈ paths, isAbsolute p = true → 0 < (strTrim p).length →
      p ∈ normalizePaths ambient paths cwd) ∧
    (∀ p ∈ paths, isAbsolute p = false → 0 < (strTrim p).length →
      resolve ambient [cwd, p] ∈ normalizePaths ambient paths cwd) ∧
    (isAbsolute cwd = true →
      normalizePaths ambient paths cwd = normalizePaths ambient2 paths cwd) := by
  refine ⟨nodup_jsSetList _, ?_, ?_, ?_,
    fun h => normalizePaths_ambient_irrelevant h ambient ambient2 paths⟩
  · unfold normalizePaths
    rw [List.filter_filter]
    simp [Bool.and_self]
  · intro p hp habs htrim
    unfold normalizePaths
    rw [mem_jsSetList]
    exact List.mem_map.2
      ⟨p, List.mem_filter.2 ⟨hp, by simpa using htrim⟩, by simp [habs]⟩
  · intro p hp habs htrim
    unfold normalizePaths
    rw [mem_jsSetList]
    exact List.mem_map.2
      ⟨p, List.mem_filter.2 ⟨hp, by simpa using htrim⟩, by simp [habs]⟩

/-- C7 witness: concrete normalization of a list with an absolute entry, a
relative entry, a blank entry and a duplicate. -/
theorem c7_normalize_paths_witness :
    "/x" ∈ normalizePaths "/amb" ["/x", "rel", " ", "/x"] "/proj" ∧
    resolve "/amb" ["/proj", "rel"] ∈
      normalizePaths "/amb" ["/x", "rel", " ", "/x"] "/proj" :=
  ⟨(c7_normalize_paths "/amb" "/amb2" "/proj" ["/x", "rel", " ", "/x"]).2.2.1
      "/x" (by decide) (by decide) (by decide),
   (c7_normalize_paths "/amb" "/amb2" "/proj" ["/x", "rel", " ", "/x"]).2.2.2.1
      "rel" (by decide) (by decide) (by decide)⟩

/-- C8: `wrapCommand` is a total function: every invocation returns either
the unchanged pass-through pair or the constructed bwrap invocation — every
edge case takes one of the two defined fallbacks, and the embedding is a
total computable function, mirroring that the source never raises. -/
theorem c8_total_defined_fallback (host : Host) (config : SandboxConfig)
    (req : AgentSandboxRequirements) (command : String) (args : List String)
    (options : SandboxWrapOptions) :
    wrapCommand host config req command args options =
        { command := command, args := args } ∨
      wrapCommand host config req command args options =
        wrapWithBwrap host config req command args options := by
  unfold wrapCommand
  split
  · exact Or.inl rfl
  · split
    · exact Or.inl rfl
    · exact Or.inr rfl

/-- C9: paths are compared as exact strings: a non-blank absolute entry is
passed through with no canonicalization, and the two spellings `/proj/out`
and `/proj/out/` of the same location are distinct — one ends up in the
read-write set while the other stays in the resolved read-only set. -/
theorem c9_exact_string_paths (ambient cwd p : String)
    (habs : isAbsolute p = true) (htrim : 0 < (strTrim p).length) :
    normalizePaths ambient [p] cwd = [p] ∧
    "/proj/out" ∈ readWriteList (Host.mk (fun _ => false) "/")
      { allowPaths := some ["/proj/out"], readOnlyPaths := some ["/proj/out/"] }
      { cwd := some "/proj" } ∧
    "/proj/out/" ∈ readOnlyList (Host.mk (fun _ => false) "/")
      { allowPaths := some ["/proj/out"], readOnlyPaths := some ["/proj/out/"] }
      ⟨[], [], []⟩ { cwd := some "/proj" } ∧
    ("/proj/out" : String) ≠ "/proj/out/" := by
  refine ⟨?_, by decide, by decide, by decide⟩
  have hq : decide (0 < (strTrim p).length) = true := by simpa using htrim
  unfold normalizePaths
  simp [hq, habs, jsSetList, insertUniq]

/-- C9 witness: the pass-through clause applied at a concrete absolute
path. -/
theorem c9_exact_string_paths_witness :
    normalizePaths "/" ["/proj/out"] "/proj" = ["/proj/out"] :=
  (c9_exact_string_paths "/" "/proj" "/proj/out" (by decide) (by decide)).1

/-- C10: `wrapWithBwrap` applies no decision gate: for every configuration,
including `enabled = false` or unsupported modes, it returns the bwrap
executable with the fully constructed argument vector; the gate lives only
in `wrapCommand`. -/
theorem c10_wrapWithBwrap_ungated (host : Host) (config : SandboxConfig)
    (req : AgentSandboxRequirements) (command : String) (args : List String)
    (options : SandboxWrapOptions) :
    (wrapWithBwrap host config req command args options).command = "bwrap" ∧
    (wrapWithBwrap host config req command args options).args =
      bwrapPreamble host config req options ++ command :: args :=
  ⟨rfl, rfl⟩

end Ralph
